import Mathlib

/-!
Shallow embedding of the chat server core (`ChatServer` in
`src/apps/api/src/websocket.ts`).

Modelling conventions:
- `Map<string, User>` (a JS insertion-ordered map) is an association list
  `List (String × User)`; `Map.set` replaces in place (keeping position) when
  the key exists and appends otherwise, `Map.get` is the first match,
  `Map.delete` filters the key out.  Iteration (`forEach`, `values()`) follows
  list order, as in JS.
- A WebSocket channel handle is identified with the session id that owns it:
  an outbound send is a pair `(targetSessionId, ChatMessage)`, and each handler
  returns the new state together with the ordered list of sends it performs.
- The `id` and `timestamp` fields of `ChatMessage` are produced from the clock
  and the RNG (`generateMessageId`, `Date.now()`); they carry no state and no
  claim depends on them, so they are omitted from the embedded record.
- `JSON.stringify` of the user list (in `sendUserList`) is modelled by keeping
  the serialized roster as a structured list in the `content` field.
- JS `String.prototype.trim` / `toLowerCase` are modelled by the executable
  `strTrim` / `strLower` below (whitespace stripping on the character list,
  per-character ASCII lowercasing); core `String.trim` / `String.toLower`
  compute the same strings but are defined by well-founded recursion on byte
  positions, which blocks kernel evaluation of concrete runs.
-/

/-- JS `String.prototype.toLowerCase` (ASCII range): lowercase each
character. -/
def strLower (s : String) : String := ⟨s.data.map Char.toLower⟩

/-- JS `String.prototype.trim`: strip leading and trailing whitespace. -/
def strTrim (s : String) : String :=
  ⟨((s.data.dropWhile Char.isWhitespace).reverse.dropWhile
      Char.isWhitespace).reverse⟩

/-- The `type` field of `ChatMessage` in `websocket.ts`. -/
inductive MsgType where
  | message
  | user_joined
  | user_left
  | user_list
  deriving DecidableEq, Repr

/-- The `content` field of a `ChatMessage`: ordinary text, or (for
`user_list` events) the serialized roster `[{id, username}, ...]`. -/
inductive Content where
  | text (s : String)
  | rosterList (members : List (String × String))
  deriving DecidableEq, Repr

/-- `ChatMessage` from `websocket.ts` (without the clock/RNG-generated
`id` and `timestamp` fields, see the module docstring). -/
structure ChatMessage where
  type : MsgType
  content : Content
  username : String
  userId : Option String
  deriving DecidableEq, Repr

/-- `User` from `websocket.ts`; the `ws` handle is represented by the
session id (the map key), so it is not repeated here. -/
structure User where
  id : String
  username : String
  deriving DecidableEq, Repr

/-- The mutable fields of `ChatServer`: `users`, `messageHistory`,
`nextUserId`. -/
structure ServerState where
  users : List (String × User)
  messageHistory : List ChatMessage
  nextUserId : Nat
  deriving DecidableEq, Repr

/-- The state of a fresh `ChatServer` (empty map, empty history,
`nextUserId = 1`). -/
def initState : ServerState := { users := [], messageHistory := [], nextUserId := 1 }

/-- `Map.get`: first entry with the given key. -/
def mapGet (m : List (String × User)) (k : String) : Option User :=
  (m.find? (fun p => p.1 == k)).map Prod.snd

/-- `Map.set`: replace in place if the key is present, else append. -/
def mapSet (m : List (String × User)) (k : String) (v : User) :
    List (String × User) :=
  if m.any (fun p => p.1 == k) then
    m.map (fun p => if p.1 == k then (k, v) else p)
  else
    m ++ [(k, v)]

/-- `Map.delete`: remove the entry with the given key. -/
def mapDelete (m : List (String × User)) (k : String) : List (String × User) :=
  m.filter (fun p => !(p.1 == k))

/-- `sendError`: the system notice `Error: <error>` of type `message`. -/
def sendErrorMsg (error : String) : ChatMessage :=
  { type := .message, content := .text ("Error: " ++ error),
    username := "System", userId := some "system" }

/-- The `user_list` message built by `sendUserList` from the current map. -/
def userListMessage (users : List (String × User)) : ChatMessage :=
  { type := .user_list,
    content := .rosterList (users.map (fun p => (p.2.id, p.2.username))),
    username := "System", userId := some "system" }

/-- `broadcastMessage`: one send of `m` to every user in the map, in map
order. -/
def broadcastMessage (users : List (String × User)) (m : ChatMessage) :
    List (String × ChatMessage) :=
  users.map (fun p => (p.1, m))

/-- `broadcastUserList`: one `user_list` send to every user in the map. -/
def broadcastUserList (users : List (String × User)) :
    List (String × ChatMessage) :=
  users.map (fun p => (p.1, userListMessage users))

/-- The `user_joined` system event broadcast on a successful join. -/
def joinedEvent (trimmedUsername : String) : ChatMessage :=
  { type := .user_joined, content := .text (trimmedUsername ++ " joined the chat"),
    username := "System", userId := some "system" }

/-- The `user_left` system event broadcast on disconnect of a joined user. -/
def leftEvent (username : String) : ChatMessage :=
  { type := .user_left, content := .text (username ++ " left the chat"),
    username := "System", userId := some "system" }

/-- The `message` event built by `handleChatMessage`. -/
def chatEvent (user : User) (content : String) : ChatMessage :=
  { type := .message, content := .text (strTrim content),
    username := user.username, userId := some user.id }

/-- `handleUserJoin(ws, userId, username)`: returns the new state and the
ordered list of sends. -/
def handleUserJoin (st : ServerState) (userId : String) (username : String) :
    ServerState × List (String × ChatMessage) :=
  if (strTrim username).length == 0 then
    (st, [(userId, sendErrorMsg "Username is required")])
  else
    let trimmedUsername := strTrim username
    match st.users.find?
        (fun p => strLower p.2.username == strLower trimmedUsername) with
    | some _ => (st, [(userId, sendErrorMsg "Username already taken")])
    | none =>
      let users' := mapSet st.users userId { id := userId, username := trimmedUsername }
      ({ st with users := users' },
        broadcastMessage users' (joinedEvent trimmedUsername)
          ++ broadcastUserList users'
          ++ st.messageHistory.map (fun m => (userId, m)))

/-- `handleChatMessage(userId, content)`. -/
def handleChatMessage (st : ServerState) (userId : String) (content : String) :
    ServerState × List (String × ChatMessage) :=
  match mapGet st.users userId with
  | none => (st, [])
  | some user =>
    if (strTrim content).length == 0 then (st, [])
    else
      let msg := chatEvent user content
      let pushed := st.messageHistory ++ [msg]
      let history' := if pushed.length > 100 then pushed.tail else pushed
      ({ st with messageHistory := history' }, broadcastMessage st.users msg)

/-- `handleUserDisconnect(userId)`. -/
def handleUserDisconnect (st : ServerState) (userId : String) :
    ServerState × List (String × ChatMessage) :=
  match mapGet st.users userId with
  | none => (st, [])
  | some user =>
    let users' := mapDelete st.users userId
    ({ st with users := users' },
      broadcastMessage users' (leftEvent user.username)
        ++ broadcastUserList users')

/-- The welcome notice sent on a new connection (note: its `type` is
`user_joined` in the source, not `message`). -/
def welcomeMessage : ChatMessage :=
  { type := .user_joined, content := .text "Welcome to the chat!",
    username := "System", userId := some "system" }

/-- The `connection` handler: assigns the fresh id `user_<nextUserId>`,
bumps the counter, and sends the welcome notice then the current user
list to the new connection.  Returns ((new state, assigned id), sends). -/
def handleConnection (st : ServerState) :
    (ServerState × String) × List (String × ChatMessage) :=
  let userId := "user_" ++ Nat.repr st.nextUserId
  (({ st with nextUserId := st.nextUserId + 1 }, userId),
    [(userId, welcomeMessage), (userId, userListMessage st.users)])

/-- The decoded inbound events routed by `handleMessage`, plus the two
transport lifecycle signals (connection accept and close/error). -/
inductive Op where
  | connect
  | join (sessionId username : String)
  | message (sessionId content : String)
  | disconnect (sessionId : String)
  deriving DecidableEq, Repr

/-- One event processed to completion (the single serialization point):
new state plus the ordered sends it performs. -/
def step (st : ServerState) : Op → ServerState × List (String × ChatMessage)
  | .connect => ((handleConnection st).1.1, (handleConnection st).2)
  | .join sid name => handleUserJoin st sid name
  | .message sid c => handleChatMessage st sid c
  | .disconnect sid => handleUserDisconnect st sid

/-- Run a sequence of events from a state. -/
def run (st : ServerState) : List Op → ServerState
  | [] => st
  | op :: ops => run (step st op).1 ops

/-- A concrete state: one joined session `user_1` with name `alice`. -/
def stAlice : ServerState :=
  { users := [("user_1", { id := "user_1", username := "alice" })],
    messageHistory := [], nextUserId := 2 }

/-- A concrete state: joined sessions `user_1`/`alice` and `user_2`/`bob`. -/
def stAliceBob : ServerState :=
  { users := [("user_1", { id := "user_1", username := "alice" }),
              ("user_2", { id := "user_2", username := "bob" })],
    messageHistory := [], nextUserId := 3 }

/-- The ids handed out by the connection acceptor along a run
(`user_<nextUserId>` at each `connection` event). -/
def assignedIds : ServerState → List Op → List String
  | _, [] => []
  | st, Op.connect :: ops =>
    ("user_" ++ Nat.repr st.nextUserId) :: assignedIds (step st Op.connect).1 ops
  | st, op :: ops => assignedIds (step st op).1 ops

/-- The session ids present in the map. -/
def keysOf (users : List (String × User)) : List String := users.map Prod.fst

/-- The lowercased display names of the joined sessions, in map order. -/
def lowerNames (users : List (String × User)) : List String :=
  users.map (fun p => strLower p.2.username)

/-- Reachable-state invariant: keys are unique (a JS map) and lowercased
display names are pairwise distinct. -/
def RegistryInv (st : ServerState) : Prop :=
  (keysOf st.users).Nodup ∧ (lowerNames st.users).Nodup

/-- Whether an event is a `sendMessage` that `handleChatMessage` accepts at
the given state (sender joined, trimmed content non-empty). -/
def msgAccepted (st : ServerState) (op : Op) : Bool :=
  match op with
  | .message sid c => (mapGet st.users sid).isSome && !((strTrim c).length == 0)
  | _ => false

/-- Number of successful `recordMessage` operations along a run. -/
def successCount : ServerState → List Op → Nat
  | _, [] => 0
  | st, op :: ops =>
    (if msgAccepted st op then 1 else 0) + successCount (step st op).1 ops

/-- The 101-message scenario: one client connects, joins as `alice`, and
sends the 101 messages `m0`, `m1`, ..., `m100`. -/
def chat101Ops : List Op :=
  [Op.connect, Op.join "user_1" "alice"]
    ++ (List.range 101).map (fun i => Op.message "user_1" ("m" ++ Nat.repr i))

/-! ### Association-list map lemmas -/

theorem mapGet_cons (p : String × User) (m : List (String × User)) (k : String) :
    mapGet (p :: m) k = if p.1 = k then some p.2 else mapGet m k := by
  by_cases h : p.1 = k
  · rw [mapGet, List.find?_cons_of_pos _ (by simp [h]), if_pos h]; rfl
  · rw [mapGet, List.find?_cons_of_neg _ (by simp [h]), if_neg h]; rfl

theorem mapDelete_cons (p : String × User) (m : List (String × User)) (k : String) :
    mapDelete (p :: m) k =
      if p.1 = k then mapDelete m k else p :: mapDelete m k := by
  by_cases hp : p.1 = k <;> simp [mapDelete, List.filter_cons, hp]

theorem mapGet_replace_self (m : List (String × User)) (k : String) (v : User)
    (hm : m.any (fun q => q.1 == k) = true) :
    mapGet (m.map (fun p => if p.1 == k then (k, v) else p)) k = some v := by
  induction m with
  | nil => simp at hm
  | cons p m ih =>
    by_cases hp : p.1 = k
    · simp [List.map_cons, mapGet_cons, hp]
    · have hm' : m.any (fun q => q.1 == k) = true := by
        simpa [List.any_cons, hp] using hm
      simp only [List.map_cons]
      rw [mapGet_cons]
      simp [hp]
      simpa [hp] using ih hm'

theorem mapGet_replace_ne (m : List (String × User)) (k' k : String) (v : User)
    (h : k' ≠ k) :
    mapGet (m.map (fun p => if p.1 == k' then (k', v) else p)) k = mapGet m k := by
  induction m with
  | nil => simp
  | cons p m ih =>
    by_cases hp : p.1 = k'
    · have hpk : ¬p.1 = k := by rw [hp]; exact h
      simp only [List.map_cons]
      rw [mapGet_cons, mapGet_cons]
      simp [hp, h, hpk]
      simpa using ih
    · simp only [List.map_cons]
      rw [mapGet_cons, mapGet_cons]
      simp [hp]
      by_cases hpk : p.1 = k
      · rw [if_pos hpk, if_pos hpk]
      · rw [if_neg hpk, if_neg hpk]; simpa using ih

theorem mapGet_append_self (m : List (String × User)) (k : String) (v : User)
    (hm : m.any (fun q => q.1 == k) = false) :
    mapGet (m ++ [(k, v)]) k = some v := by
  induction m with
  | nil => simp [mapGet_cons]
  | cons p m ih =>
    have hall := List.any_eq_false.mp hm
    have hp : ¬p.1 = k := by
      intro hc
      exact hall p (by simp) (by simp [hc])
    have hm' : m.any (fun q => q.1 == k) = false :=
      List.any_eq_false.mpr (fun q hq => hall q (List.mem_cons_of_mem _ hq))
    rw [List.cons_append, mapGet_cons, if_neg hp]
    exact ih hm'

theorem mapGet_append_ne (m : List (String × User)) (k' k : String) (v : User)
    (h : k' ≠ k) : mapGet (m ++ [(k', v)]) k = mapGet m k := by
  induction m with
  | nil => simp [mapGet_cons, h, mapGet]
  | cons p m ih =>
    rw [List.cons_append, mapGet_cons, mapGet_cons, ih]

theorem mapGet_mapSet_self (m : List (String × User)) (k : String) (v : User) :
    mapGet (mapSet m k v) k = some v := by
  rw [mapSet]
  by_cases hm : m.any (fun q => q.1 == k) = true
  · rw [if_pos hm]; exact mapGet_replace_self m k v hm
  · have hm' : m.any (fun q => q.1 == k) = false := Bool.eq_false_iff.mpr hm
    rw [if_neg hm]; exact mapGet_append_self m k v hm'

theorem mapGet_mapSet_ne (m : List (String × User)) (k' k : String) (v : User)
    (h : k' ≠ k) : mapGet (mapSet m k' v) k = mapGet m k := by
  rw [mapSet]
  by_cases hm : m.any (fun q => q.1 == k') = true
  · rw [if_pos hm]; exact mapGet_replace_ne m k' k v h
  · rw [if_neg hm]; exact mapGet_append_ne m k' k v h

theorem mapGet_mapDelete_self (m : List (String × User)) (k : String) :
    mapGet (mapDelete m k) k = none := by
  induction m with
  | nil => rfl
  | cons p m ih =>
    rw [mapDelete_cons]
    by_cases hp : p.1 = k
    · rw [if_pos hp]; exact ih
    · rw [if_neg hp, mapGet_cons, if_neg hp]; exact ih

theorem mapGet_mapDelete_ne (m : List (String × User)) (k' k : String)
    (h : k' ≠ k) : mapGet (mapDelete m k') k = mapGet m k := by
  induction m with
  | nil => rfl
  | cons p m ih =>
    rw [mapDelete_cons]
    by_cases hp : p.1 = k'
    · have hpk : ¬p.1 = k := by rw [hp]; exact h
      rw [if_pos hp, mapGet_cons, if_neg hpk]; exact ih
    · rw [if_neg hp, mapGet_cons, mapGet_cons, ih]

/-! ### Registry invariant: unique keys and unique lowercased names -/

theorem keysOf_replace (m : List (String × User)) (k : String) (v : User) :
    keysOf (m.map (fun p => if p.1 == k then (k, v) else p)) = keysOf m := by
  induction m with
  | nil => rfl
  | cons p m ih =>
    by_cases hp : p.1 = k
    · simp [keysOf, List.map_cons, hp] at ih ⊢
      exact ih
    · simp [keysOf, List.map_cons, hp] at ih ⊢
      exact ih

theorem replace_noop (m : List (String × User)) (k : String) (v : User)
    (h : ∀ p ∈ m, p.1 ≠ k) :
    m.map (fun p => if p.1 == k then (k, v) else p) = m := by
  induction m with
  | nil => rfl
  | cons p m ih =>
    have hp : ¬p.1 = k := h p (by simp)
    have hite : (if p.1 == k then (k, v) else p) = p := if_neg (by simpa using hp)
    rw [List.map_cons, hite, ih (fun q hq => h q (List.mem_cons_of_mem _ hq))]

theorem mem_lowerNames_replace (m : List (String × User)) (k : String)
    (v : User) (x : String)
    (hx : x ∈ lowerNames (m.map (fun p => if p.1 == k then (k, v) else p))) :
    x = strLower v.username ∨ x ∈ lowerNames m := by
  induction m with
  | nil => simp [lowerNames] at hx
  | cons p m ih =>
    by_cases hp : p.1 = k
    · have hite : (if p.1 == k then (k, v) else p) = (k, v) :=
        if_pos (by simpa using hp)
      rw [List.map_cons, hite] at hx
      rcases List.mem_cons.mp hx with hx | hx
      · exact Or.inl hx
      · rcases ih hx with h | h
        · exact Or.inl h
        · exact Or.inr (List.mem_cons_of_mem _ h)
    · have hite : (if p.1 == k then (k, v) else p) = p :=
        if_neg (by simpa using hp)
      rw [List.map_cons, hite] at hx
      rcases List.mem_cons.mp hx with hx | hx
      · refine Or.inr ?_
        rw [lowerNames, List.map_cons, hx]
        exact List.mem_cons_self _ _
      · rcases ih hx with h | h
        · exact Or.inl h
        · exact Or.inr (List.mem_cons_of_mem _ h)

theorem lowerNames_replace_nodup (m : List (String × User)) (k : String)
    (v : User) (hkeys : (keysOf m).Nodup) (hnames : (lowerNames m).Nodup)
    (hfresh : ∀ p ∈ m, strLower p.2.username ≠ strLower v.username) :
    (lowerNames (m.map (fun p => if p.1 == k then (k, v) else p))).Nodup := by
  induction m with
  | nil => simp [lowerNames]
  | cons p m ih =>
    have hkeys' : (keysOf m).Nodup := (List.nodup_cons.mp hkeys).2
    have hnames' : (lowerNames m).Nodup := (List.nodup_cons.mp hnames).2
    have hfresh' : ∀ q ∈ m, strLower q.2.username ≠ strLower v.username :=
      fun q hq => hfresh q (List.mem_cons_of_mem _ hq)
    by_cases hp : p.1 = k
    · have hite : (if p.1 == k then (k, v) else p) = (k, v) :=
        if_pos (by simpa using hp)
      have hknotin : k ∉ keysOf m := by
        have := (List.nodup_cons.mp hkeys).1
        simpa [keysOf, hp] using this
      have hnoop : m.map (fun q => if q.1 == k then (k, v) else q) = m := by
        refine replace_noop m k v (fun q hq hc => hknotin ?_)
        rw [keysOf]
        exact hc ▸ List.mem_map_of_mem Prod.fst hq
      rw [List.map_cons, hite, lowerNames, List.map_cons, hnoop]
      refine List.nodup_cons.mpr ⟨?_, hnames'⟩
      intro hc
      rcases List.mem_map.mp hc with ⟨q, hq, hqeq⟩
      exact hfresh' q hq hqeq
    · have hite : (if p.1 == k then (k, v) else p) = p :=
        if_neg (by simpa using hp)
      rw [List.map_cons, hite, lowerNames, List.map_cons]
      refine List.nodup_cons.mpr ⟨?_, ih hkeys' hnames' hfresh'⟩
      intro hc
      rcases mem_lowerNames_replace m k v _ hc with h | h
      · exact hfresh p (by simp) h
      · exact (List.nodup_cons.mp hnames).1 h

theorem registryInv_mapSet (m : List (String × User)) (k : String) (v : User)
    (hkeys : (keysOf m).Nodup) (hnames : (lowerNames m).Nodup)
    (hfresh : ∀ p ∈ m, strLower p.2.username ≠ strLower v.username) :
    (keysOf (mapSet m k v)).Nodup ∧ (lowerNames (mapSet m k v)).Nodup := by
  rw [mapSet]
  by_cases hany : m.any (fun q => q.1 == k) = true
  · rw [if_pos hany]
    exact ⟨by rw [keysOf_replace]; exact hkeys,
      lowerNames_replace_nodup m k v hkeys hnames hfresh⟩
  · have hany' : m.any (fun q => q.1 == k) = false := Bool.eq_false_iff.mpr hany
    rw [if_neg hany]
    have hknotin : k ∉ keysOf m := by
      intro hc
      rcases List.mem_map.mp hc with ⟨q, hq, hqe⟩
      have hq2 : ¬q.1 = k := by simpa using List.any_eq_false.mp hany' q hq
      exact hq2 hqe
    constructor
    · rw [keysOf, List.map_append, List.nodup_append]
      refine ⟨hkeys, List.nodup_singleton _, ?_⟩
      intro a ha hb
      simp at hb
      exact hknotin (hb ▸ ha)
    · rw [lowerNames, List.map_append, List.nodup_append]
      refine ⟨hnames, List.nodup_singleton _, ?_⟩
      intro a ha hb
      simp at hb
      subst hb
      rcases List.mem_map.mp ha with ⟨q, hq, hqe⟩
      exact hfresh q hq hqe

theorem registryInv_join (st : ServerState) (sid name : String)
    (h : RegistryInv st) : RegistryInv (handleUserJoin st sid name).1 := by
  unfold handleUserJoin
  split
  next => exact h
  next =>
    simp only []
    split
    next => exact h
    next hfind =>
      have hfresh : ∀ p ∈ st.users,
          strLower p.2.username ≠ strLower (strTrim name) := by
        intro p hp
        have := List.find?_eq_none.mp hfind p hp
        simpa using this
      exact registryInv_mapSet st.users sid _ h.1 h.2 hfresh

theorem registryInv_step (st : ServerState) (op : Op) (h : RegistryInv st) :
    RegistryInv (step st op).1 := by
  cases op with
  | connect => exact h
  | join sid name => exact registryInv_join st sid name h
  | message sid c =>
    show RegistryInv (handleChatMessage st sid c).1
    unfold handleChatMessage
    split
    next => exact h
    next =>
      split
      next => exact h
      next => exact h
  | disconnect sid =>
    show RegistryInv (handleUserDisconnect st sid).1
    unfold handleUserDisconnect
    split
    next => exact h
    next =>
      exact ⟨List.Nodup.sublist (List.Sublist.map _ (List.filter_sublist _)) h.1,
        List.Nodup.sublist (List.Sublist.map _ (List.filter_sublist _)) h.2⟩

theorem registryInv_run (ops : List Op) (st : ServerState) (h : RegistryInv st) :
    RegistryInv (run st ops) := by
  induction ops generalizing st with
  | nil => exact h
  | cons op ops ih => exact ih (step st op).1 (registryInv_step st op h)

theorem registryInv_initState : RegistryInv initState :=
  ⟨List.nodup_nil, List.nodup_nil⟩

/-- C1: at every state reachable from the fresh server by any sequence of
events (in particular after each join of any sequence of joins), the
lowercased display names of the sessions in the `users` map are pairwise
distinct. -/
theorem C1_display_names_unique (ops : List Op) :
    (lowerNames (run initState ops).users).Nodup :=
  (registryInv_run ops initState registryInv_initState).2

/-! ### History bound and FIFO eviction -/

theorem histLen_step (st : ServerState) (op : Op)
    (h : st.messageHistory.length ≤ 100) :
    (step st op).1.messageHistory.length =
      if msgAccepted st op then min (st.messageHistory.length + 1) 100
      else st.messageHistory.length := by
  cases op with
  | connect => rw [if_neg (by simp [msgAccepted])]; rfl
  | join sid name =>
    rw [if_neg (by simp [msgAccepted])]
    show (handleUserJoin st sid name).1.messageHistory.length = _
    unfold handleUserJoin
    split
    next => rfl
    next =>
      simp only []
      split
      next => rfl
      next => rfl
  | disconnect sid =>
    rw [if_neg (by simp [msgAccepted])]
    show (handleUserDisconnect st sid).1.messageHistory.length = _
    unfold handleUserDisconnect
    split
    next => rfl
    next => rfl
  | message sid c =>
    show (handleChatMessage st sid c).1.messageHistory.length = _
    unfold handleChatMessage
    split
    next hg => rw [if_neg (by simp [msgAccepted, hg])]
    next u hg =>
      by_cases hc : ((strTrim c).length == 0) = true
      · rw [if_pos hc, if_neg (by simp [msgAccepted, hg, hc])]
      · rw [if_neg hc, if_pos (by simp [msgAccepted, hg]; simpa using hc)]
        simp only []
        have hlen : (st.messageHistory ++ [chatEvent u c]).length
            = st.messageHistory.length + 1 := by simp
        by_cases hgt : (st.messageHistory ++ [chatEvent u c]).length > 100
        · rw [if_pos hgt, List.length_tail, hlen]
          rw [hlen] at hgt
          omega
        · rw [if_neg hgt, hlen]
          rw [hlen] at hgt
          omega

theorem histLen_run (ops : List Op) (st : ServerState)
    (h : st.messageHistory.length ≤ 100) :
    (run st ops).messageHistory.length =
      min (st.messageHistory.length + successCount st ops) 100 := by
  induction ops generalizing st with
  | nil =>
    show st.messageHistory.length
      = min (st.messageHistory.length + successCount st []) 100
    rw [show successCount st [] = 0 from rfl]
    omega
  | cons op ops ih =>
    have hstep := histLen_step st op h
    have h' : (step st op).1.messageHistory.length ≤ 100 := by
      rw [hstep]; split <;> omega
    show (run (step st op).1 ops).messageHistory.length = _
    rw [ih (step st op).1 h']
    rw [hstep]
    rw [show successCount st (op :: ops)
      = (if msgAccepted st op then 1 else 0) + successCount (step st op).1 ops
      from rfl]
    split <;> omega

set_option maxRecDepth 80000 in
/-- C2: after any run, the history length equals
min(number of successful messages, 100) (hence is always ≤ 100); and in the
101-sequential-message scenario the final history has length 100 and its
first element is the `message` event of the 2nd message sent (`m1`) — the
1st was evicted first (FIFO). -/
theorem C2_history_bound_fifo :
    (∀ ops : List Op,
      (run initState ops).messageHistory.length =
        min (successCount initState ops) 100)
    ∧ ((run initState chat101Ops).messageHistory.length = 100
      ∧ (run initState chat101Ops).messageHistory.head?
          = some (chatEvent { id := "user_1", username := "alice" } "m1")) := by
  refine ⟨fun ops => ?_, by decide⟩
  have := histLen_run ops initState (by simp [initState])
  simpa [initState] using this

/-! ### Rejected joins (C3, C10) -/

/-- C3: a rejected join (trimmed name empty, or name taken under
case-insensitive comparison) leaves the state unchanged and sends exactly
one error notice, to the originating session only — no broadcast. -/
theorem C3_rejected_join_side_effect_free (st : ServerState)
    (sid username : String)
    (h : (strTrim username).length = 0
      ∨ ∃ p ∈ st.users, strLower p.2.username = strLower (strTrim username)) :
    (handleUserJoin st sid username).1 = st
    ∧ ((handleUserJoin st sid username).2
        = [(sid, sendErrorMsg "Username is required")]
      ∨ (handleUserJoin st sid username).2
        = [(sid, sendErrorMsg "Username already taken")]) := by
  unfold handleUserJoin
  by_cases h0 : (((strTrim username).length == 0) = true)
  · rw [if_pos h0]
    exact ⟨rfl, Or.inl rfl⟩
  · rw [if_neg h0]
    simp only []
    split
    next => exact ⟨rfl, Or.inr rfl⟩
    next hfind =>
      exfalso
      rcases h with h | ⟨p, hp, hpe⟩
      · exact h0 (by simpa using h)
      · have hnp := List.find?_eq_none.mp hfind p hp
        simp at hnp
        exact hnp hpe

theorem C3_witness :
    ((strTrim "Alice").length = 0
      ∨ ∃ p ∈ stAlice.users,
          strLower p.2.username = strLower (strTrim "Alice"))
    ∧ ((handleUserJoin stAlice "user_2" "Alice").1 = stAlice
      ∧ ((handleUserJoin stAlice "user_2" "Alice").2
          = [("user_2", sendErrorMsg "Username is required")]
        ∨ (handleUserJoin stAlice "user_2" "Alice").2
          = [("user_2", sendErrorMsg "Username already taken")])) :=
  ⟨by decide,
    C3_rejected_join_side_effect_free stAlice "user_2" "Alice" (by decide)⟩

/-- C10: an already-joined session that re-sends `join` with its own
current name (case-insensitively, after trimming) is rejected as a taken
name: the state is unchanged and only the originating session gets the
error notice. -/
theorem C10_self_rejoin_same_name_rejected (st : ServerState)
    (sid name : String) (u : User) (hu : mapGet st.users sid = some u)
    (hname : strLower (strTrim name) = strLower u.username)
    (hne : (strTrim name).length ≠ 0) :
    handleUserJoin st sid name
      = (st, [(sid, sendErrorMsg "Username already taken")]) := by
  have hmem : ∃ p ∈ st.users,
      (strLower p.2.username == strLower (strTrim name)) = true := by
    rcases Option.map_eq_some'.mp hu with ⟨q, hq, hq2⟩
    exact ⟨q, List.mem_of_find?_eq_some hq, by simp [hq2, hname]⟩
  unfold handleUserJoin
  rw [if_neg (by simpa using hne)]
  simp only []
  split
  next => rfl
  next hfind =>
    exfalso
    rcases hmem with ⟨p, hp, hpred⟩
    have hnp := List.find?_eq_none.mp hfind p hp
    simp at hnp
    exact hnp (by simpa using hpred)

theorem C10_witness :
    mapGet stAlice.users "user_1" = some { id := "user_1", username := "alice" }
    ∧ strLower (strTrim " ALICE ") = strLower "alice"
    ∧ (strTrim " ALICE ").length ≠ 0
    ∧ handleUserJoin stAlice "user_1" " ALICE "
        = (stAlice, [("user_1", sendErrorMsg "Username already taken")]) :=
  ⟨by decide, by decide, by decide,
    C10_self_rejoin_same_name_rejected stAlice "user_1" " ALICE "
      { id := "user_1", username := "alice" } (by decide) (by decide) (by decide)⟩

/-! ### Display-name stability (C4) -/

/-- C4 counterexample: after `user_1` joins as `alice`, a further inbound
join event from the same session with the free name `bob` succeeds and
REBINDS the session's display name — the name is not immutable. -/
theorem C4_counterexample :
    (mapGet (run initState [Op.connect, Op.join "user_1" "alice"]).users
        "user_1").map User.username = some "alice"
    ∧ (mapGet (run initState
          [Op.connect, Op.join "user_1" "alice", Op.join "user_1" "bob"]).users
        "user_1").map User.username = some "bob"
    ∧ ("bob" : String) ≠ "alice" := by decide

/-- C4 (amended): once a session's display name is bound, no operation
other than a further join event from that same session (or the session's
own disconnect, which ends its lifetime) changes it. -/
theorem C4_display_name_stable (st : ServerState) (op : Op) (sid : String)
    (u : User) (hu : mapGet st.users sid = some u)
    (hjoin : ∀ name, op ≠ Op.join sid name)
    (hdisc : op ≠ Op.disconnect sid) :
    mapGet (step st op).1.users sid = some u := by
  cases op with
  | connect => exact hu
  | message sid' c =>
    show mapGet (handleChatMessage st sid' c).1.users sid = some u
    unfold handleChatMessage
    split
    next => exact hu
    next =>
      split
      next => exact hu
      next => exact hu
  | join sid' name =>
    have hne : sid' ≠ sid := by
      intro hc; exact hjoin name (by rw [hc])
    show mapGet (handleUserJoin st sid' name).1.users sid = some u
    unfold handleUserJoin
    split
    next => exact hu
    next =>
      simp only []
      split
      next => exact hu
      next =>
        show mapGet (mapSet st.users sid' _) sid = some u
        rw [mapGet_mapSet_ne _ _ _ _ hne]
        exact hu
  | disconnect sid' =>
    have hne : sid' ≠ sid := fun hc => hdisc (by rw [hc])
    show mapGet (handleUserDisconnect st sid').1.users sid = some u
    unfold handleUserDisconnect
    split
    next => exact hu
    next =>
      show mapGet (mapDelete st.users sid') sid = some u
      rw [mapGet_mapDelete_ne _ _ _ hne]
      exact hu

theorem C4_witness :
    mapGet stAlice.users "user_1" = some { id := "user_1", username := "alice" }
    ∧ (∀ name, Op.message "user_2" "hi" ≠ Op.join "user_1" name)
    ∧ Op.message "user_2" "hi" ≠ Op.disconnect "user_1"
    ∧ mapGet (step stAlice (Op.message "user_2" "hi")).1.users "user_1"
        = some { id := "user_1", username := "alice" } :=
  by
  have hj : ∀ name, Op.message "user_2" "hi" ≠ Op.join "user_1" name := by
    intro name h
    exact Op.noConfusion h
  refine ⟨by decide, hj, by decide, ?_⟩
  exact C4_display_name_stable stAlice (Op.message "user_2" "hi") "user_1"
    { id := "user_1", username := "alice" } (by decide) hj (by decide)

/-! ### Successful join fan-out (C5) -/

/-- C5: a successful join of session S (non-empty trimmed name, not taken)
(a) broadcasts the `userJoined` system event to all joined sessions — the
updated map, which includes S; (b) broadcasts the roster snapshot built from
the state after the join to all joined sessions; (c) delivers the entire
message history to S alone, oldest first, one outbound event per entry. -/
theorem C5_join_success_fanout (st : ServerState) (sid username : String)
    (h0 : (strTrim username).length ≠ 0)
    (hfree : st.users.find?
      (fun p => strLower p.2.username == strLower (strTrim username)) = none) :
    (handleUserJoin st sid username).1
      = { st with users := (mapSet st.users sid
            { id := sid, username := strTrim username }) }
    ∧ (handleUserJoin st sid username).2
      = broadcastMessage
          (mapSet st.users sid { id := sid, username := strTrim username })
          (joinedEvent (strTrim username))
        ++ broadcastUserList
            (mapSet st.users sid { id := sid, username := strTrim username })
        ++ st.messageHistory.map (fun m => (sid, m))
    ∧ mapGet (mapSet st.users sid { id := sid, username := strTrim username })
        sid = some { id := sid, username := strTrim username } := by
  unfold handleUserJoin
  rw [if_neg (by simpa using h0)]
  simp only []
  split
  next q hq =>
    rw [hfree] at hq
    exact Option.noConfusion hq
  next => exact ⟨rfl, rfl, mapGet_mapSet_self _ _ _⟩

theorem C5_witness :
    (strTrim " Bob ").length ≠ 0
    ∧ stAlice.users.find?
        (fun p => strLower p.2.username == strLower (strTrim " Bob ")) = none
    ∧ (handleUserJoin stAlice "user_2" " Bob ").2
      = broadcastMessage
          (mapSet stAlice.users "user_2"
            { id := "user_2", username := strTrim " Bob " })
          (joinedEvent (strTrim " Bob "))
        ++ broadcastUserList
            (mapSet stAlice.users "user_2"
              { id := "user_2", username := strTrim " Bob " })
        ++ stAlice.messageHistory.map (fun m => ("user_2", m)) :=
  ⟨by decide, by decide,
    (C5_join_success_fanout stAlice "user_2" " Bob " (by decide)
      (by decide)).2.1⟩

/-! ### Message drop / broadcast (C6) -/

/-- C6: an inbound `sendMessage` from a non-joined session, or with empty
trimmed content, is a complete no-op (state unchanged, nothing sent to
anyone); from a joined session with non-empty trimmed content, the `users`
map is unchanged and the resulting `message` event is broadcast to all
joined sessions. -/
theorem C6_message_drop_or_broadcast (st : ServerState) (sid c : String) :
    ((mapGet st.users sid = none ∨ (strTrim c).length = 0) →
      handleChatMessage st sid c = (st, []))
    ∧ (∀ u, mapGet st.users sid = some u → (strTrim c).length ≠ 0 →
      (handleChatMessage st sid c).1.users = st.users
      ∧ (handleChatMessage st sid c).2
          = broadcastMessage st.users (chatEvent u c)) := by
  unfold handleChatMessage
  split
  next hg =>
    refine ⟨fun _ => rfl, fun u hu _ => ?_⟩
    rw [hg] at hu
    exact Option.noConfusion hu
  next u0 hg =>
    split
    next hc =>
      refine ⟨fun _ => rfl, fun u hu hne => absurd (by simpa using hc) hne⟩
    next hc =>
      simp only []
      constructor
      · intro h
        rcases h with h | h
        · rw [h] at hg
          exact Option.noConfusion hg
        · exact absurd h (by simpa using hc)
      · intro u hu _
        have hequ : u0 = u := by
          rw [hg] at hu
          injection hu
        subst hequ
        exact ⟨trivial, rfl⟩

theorem C6_witness :
    handleChatMessage stAlice "user_9" "hi" = (stAlice, [])
    ∧ (handleChatMessage stAlice "user_1" " hi ").2
        = broadcastMessage stAlice.users
            (chatEvent { id := "user_1", username := "alice" } " hi ") :=
  ⟨(C6_message_drop_or_broadcast stAlice "user_9" "hi").1 (Or.inl (by decide)),
    ((C6_message_drop_or_broadcast stAlice "user_1" " hi ").2
      { id := "user_1", username := "alice" } (by decide) (by decide)).2⟩

/-! ### Disconnect fan-out and idempotence (C7, C8) -/

/-- C7: on disconnect of a joined session A, the map entry of A is removed
and every remaining joined session is sent the `userLeft` system event and
then the roster snapshot of the post-removal state (which excludes A), in
that order; on disconnect of a never-joined session, nothing is sent to
anyone and the state is unchanged. -/
theorem C7_disconnect_fanout (st : ServerState) (sid : String) :
    (mapGet st.users sid = none → handleUserDisconnect st sid = (st, []))
    ∧ (∀ u, mapGet st.users sid = some u →
      (handleUserDisconnect st sid).1
          = { st with users := mapDelete st.users sid }
      ∧ (handleUserDisconnect st sid).2
          = broadcastMessage (mapDelete st.users sid) (leftEvent u.username)
            ++ broadcastUserList (mapDelete st.users sid)
      ∧ mapGet (mapDelete st.users sid) sid = none) := by
  unfold handleUserDisconnect
  cases hg : mapGet st.users sid with
  | none =>
    exact ⟨fun _ => rfl, fun u hu => Option.noConfusion hu⟩
  | some u0 =>
    refine ⟨fun h => Option.noConfusion h, fun u hu => ?_⟩
    obtain rfl : u0 = u := by injection hu
    exact ⟨rfl, rfl, mapGet_mapDelete_self _ _⟩

theorem C7_witness :
    mapGet stAliceBob.users "user_1"
        = some { id := "user_1", username := "alice" }
    ∧ (handleUserDisconnect stAliceBob "user_1").2
        = broadcastMessage (mapDelete stAliceBob.users "user_1")
            (leftEvent "alice")
          ++ broadcastUserList (mapDelete stAliceBob.users "user_1") :=
  ⟨by decide,
    ((C7_disconnect_fanout stAliceBob "user_1").2
      { id := "user_1", username := "alice" } (by decide)).2.1⟩

theorem disconnect_of_none (st : ServerState) (sid : String)
    (h : mapGet st.users sid = none) :
    handleUserDisconnect st sid = (st, []) := by
  unfold handleUserDisconnect
  rw [h]

theorem mapGet_after_disconnect (st : ServerState) (sid : String) :
    mapGet (handleUserDisconnect st sid).1.users sid = none := by
  unfold handleUserDisconnect
  cases hg : mapGet st.users sid with
  | none => exact hg
  | some u => exact mapGet_mapDelete_self _ _

/-- C8: disconnect handling is idempotent: a second disconnect of the same
session id leaves the state unchanged and sends nothing; the `userLeft` and
roster notifications are produced only by the first call, and only when the
session was joined (a never-joined disconnect sends nothing at all). -/
theorem C8_disconnect_idempotent (st : ServerState) (sid : String) :
    handleUserDisconnect (handleUserDisconnect st sid).1 sid
      = ((handleUserDisconnect st sid).1, [])
    ∧ (mapGet st.users sid = none → (handleUserDisconnect st sid).2 = [])
    ∧ (∀ u, mapGet st.users sid = some u →
      (handleUserDisconnect st sid).2
        = broadcastMessage (mapDelete st.users sid) (leftEvent u.username)
          ++ broadcastUserList (mapDelete st.users sid)) := by
  refine ⟨disconnect_of_none _ _ (mapGet_after_disconnect st sid), ?_, ?_⟩
  · intro h
    rw [disconnect_of_none st sid h]
  · intro u hu
    unfold handleUserDisconnect
    rw [hu]

theorem C8_witness :
    handleUserDisconnect (handleUserDisconnect stAlice "user_1").1 "user_1"
      = ((handleUserDisconnect stAlice "user_1").1, [])
    ∧ (handleUserDisconnect stAlice "user_1").2
        = broadcastMessage (mapDelete stAlice.users "user_1")
            (leftEvent "alice")
          ++ broadcastUserList (mapDelete stAlice.users "user_1") :=
  ⟨(C8_disconnect_idempotent stAlice "user_1").1,
    (C8_disconnect_idempotent stAlice "user_1").2.2
      { id := "user_1", username := "alice" } (by decide)⟩

/-! ### Decimal rendering of Nat is injective (for fresh connection ids) -/

theorem digitChar_inj_lt :
    ∀ a, a < 10 → ∀ c, c < 10 → Nat.digitChar a = Nat.digitChar c → a = c := by
  decide

theorem toDigitsCore_eq_digits :
    ∀ (n : Nat), 0 < n → ∀ (fuel : Nat), n < fuel → ∀ (ds : List Char),
    Nat.toDigitsCore 10 fuel n ds
      = ((Nat.digits 10 n).map Nat.digitChar).reverse ++ ds := by
  intro n
  induction n using Nat.strong_induction_on with
  | _ n ih =>
    intro h0 fuel hf ds
    cases fuel with
    | zero => omega
    | succ f =>
      rw [Nat.digits_def' (by norm_num : (1:ℕ) < 10) h0]
      by_cases hz : n / 10 = 0
      · show (if n / 10 = 0 then Nat.digitChar (n % 10) :: ds
            else Nat.toDigitsCore 10 f (n / 10)
              (Nat.digitChar (n % 10) :: ds)) = _
        rw [if_pos hz, hz, Nat.digits_zero]
        simp
      · show (if n / 10 = 0 then Nat.digitChar (n % 10) :: ds
            else Nat.toDigitsCore 10 f (n / 10)
              (Nat.digitChar (n % 10) :: ds)) = _
        rw [if_neg hz]
        have hlt : n / 10 < n := Nat.div_lt_self h0 (by norm_num)
        have hf' : n / 10 < f := by omega
        rw [ih (n / 10) hlt (Nat.pos_of_ne_zero hz) f hf'
          (Nat.digitChar (n % 10) :: ds)]
        simp [List.reverse_cons, List.append_assoc]

theorem toDigits_eq_digits (n : Nat) (h0 : 0 < n) :
    Nat.toDigits 10 n = ((Nat.digits 10 n).map Nat.digitChar).reverse := by
  have := toDigitsCore_eq_digits n h0 (n + 1) (Nat.lt_succ_self n) []
  simpa [Nat.toDigits] using this

theorem map_digitChar_inj :
    ∀ (l1 l2 : List Nat), (∀ x ∈ l1, x < 10) → (∀ x ∈ l2, x < 10) →
    l1.map Nat.digitChar = l2.map Nat.digitChar → l1 = l2 := by
  intro l1
  induction l1 with
  | nil =>
    intro l2 _ _ h
    cases l2 with
    | nil => rfl
    | cons b t => simp at h
  | cons a t ih =>
    intro l2 h1 h2 h
    cases l2 with
    | nil => simp at h
    | cons b t2 =>
      simp only [List.map_cons, List.cons.injEq] at h
      have hab : a = b :=
        digitChar_inj_lt a (h1 a (by simp)) b (h2 b (by simp)) h.1
      rw [hab, ih t2 (fun x hx => h1 x (List.mem_cons_of_mem _ hx))
        (fun x hx => h2 x (List.mem_cons_of_mem _ hx)) h.2]

theorem toDigits_singleton_zero (n : Nat) (h : Nat.toDigits 10 n = ['0']) :
    n = 0 := by
  by_cases hn : n = 0
  · exact hn
  · rw [toDigits_eq_digits n (Nat.pos_of_ne_zero hn)] at h
    have hrev : (Nat.digits 10 n).map Nat.digitChar = ['0'] := by
      have := congrArg List.reverse h
      simpa using this
    have hd : Nat.digits 10 n = [0] :=
      map_digitChar_inj _ _
        (fun x hx => Nat.digits_lt_base (by norm_num) hx)
        (fun x hx => by simp at hx; omega)
        (by rw [hrev]; rfl)
    have hof := Nat.ofDigits_digits 10 n
    rw [hd] at hof
    simp [Nat.ofDigits] at hof
    exact hof.symm

theorem natRepr_injective (m n : Nat) (h : Nat.repr m = Nat.repr n) :
    m = n := by
  have hd : Nat.toDigits 10 m = Nat.toDigits 10 n := by
    have := congrArg String.data h
    simpa [Nat.repr, List.asString] using this
  by_cases hm : m = 0
  · subst hm
    exact (toDigits_singleton_zero n (by rw [← hd]; rfl)).symm
  · by_cases hn : n = 0
    · subst hn
      exact toDigits_singleton_zero m (by rw [hd]; rfl)
    · rw [toDigits_eq_digits m (Nat.pos_of_ne_zero hm),
        toDigits_eq_digits n (Nat.pos_of_ne_zero hn)] at hd
      have hmap : (Nat.digits 10 m).map Nat.digitChar
          = (Nat.digits 10 n).map Nat.digitChar := by
        have := congrArg List.reverse hd
        simpa using this
      have hdig : Nat.digits 10 m = Nat.digits 10 n :=
        map_digitChar_inj _ _
          (fun x hx => Nat.digits_lt_base (by norm_num) hx)
          (fun x hx => Nat.digits_lt_base (by norm_num) hx) hmap
      have h1 := Nat.ofDigits_digits 10 m
      rw [hdig] at h1
      exact h1.symm.trans (Nat.ofDigits_digits 10 n)

/-! ### Connection accept (C9) -/

theorem nextUserId_le_step (st : ServerState) (op : Op) :
    st.nextUserId ≤ (step st op).1.nextUserId := by
  cases op with
  | connect => exact Nat.le_succ _
  | join sid name =>
    show st.nextUserId ≤ (handleUserJoin st sid name).1.nextUserId
    unfold handleUserJoin
    split
    next => exact le_refl _
    next =>
      simp only []
      split
      next => exact le_refl _
      next => exact le_refl _
  | message sid c =>
    show st.nextUserId ≤ (handleChatMessage st sid c).1.nextUserId
    unfold handleChatMessage
    split
    next => exact le_refl _
    next =>
      split
      next => exact le_refl _
      next => exact le_refl _
  | disconnect sid =>
    show st.nextUserId ≤ (handleUserDisconnect st sid).1.nextUserId
    unfold handleUserDisconnect
    split
    next => exact le_refl _
    next => exact le_refl _

theorem assignedIds_lb (ops : List Op) : ∀ (st : ServerState),
    ∀ s ∈ assignedIds st ops,
      ∃ n, st.nextUserId ≤ n ∧ s = "user_" ++ Nat.repr n := by
  induction ops with
  | nil =>
    intro st s hs
    simp [assignedIds] at hs
  | cons op ops ih =>
    intro st s hs
    cases op with
    | connect =>
      rcases List.mem_cons.mp hs with h | h
      · exact ⟨st.nextUserId, le_refl _, h⟩
      · rcases ih _ s h with ⟨n, hn, he⟩
        exact ⟨n, le_trans (nextUserId_le_step st Op.connect) hn, he⟩
    | join sid name =>
      rcases ih _ s hs with ⟨n, hn, he⟩
      exact ⟨n, le_trans (nextUserId_le_step st (Op.join sid name)) hn, he⟩
    | message sid c =>
      rcases ih _ s hs with ⟨n, hn, he⟩
      exact ⟨n, le_trans (nextUserId_le_step st (Op.message sid c)) hn, he⟩
    | disconnect sid =>
      rcases ih _ s hs with ⟨n, hn, he⟩
      exact ⟨n, le_trans (nextUserId_le_step st (Op.disconnect sid)) hn, he⟩

theorem assignedIds_nodup (ops : List Op) : ∀ (st : ServerState),
    (assignedIds st ops).Nodup := by
  induction ops with
  | nil => intro st; exact List.nodup_nil
  | cons op ops ih =>
    intro st
    cases op with
    | connect =>
      refine List.nodup_cons.mpr ⟨?_, ih _⟩
      intro hc
      rcases assignedIds_lb ops _ _ hc with ⟨n, hn, he⟩
      have hn' : st.nextUserId + 1 ≤ n := hn
      have hdata := congrArg String.data he
      simp only [String.data_append] at hdata
      have hrd : (Nat.repr st.nextUserId).data = (Nat.repr n).data :=
        List.append_cancel_left hdata
      have := natRepr_injective st.nextUserId n (String.ext hrd)
      omega
    | join sid name => exact ih _
    | message sid c => exact ih _
    | disconnect sid => exact ih _

/-- C9 counterexample: in the source the welcome notice sent to a fresh
connection has `type: "user_joined"`, not kind `message` as claimed — shown
on the very first connection of a fresh server. -/
theorem C9_counterexample :
    ((handleConnection initState).2.map (fun p => p.2.type))
      = [MsgType.user_joined, MsgType.user_list]
    ∧ MsgType.user_joined ≠ MsgType.message := by decide

/-- C9 (amended): every new connection is assigned the fresh id
`user_<nextUserId>` (and ids assigned along any run are pairwise distinct —
never reused), and before any of its inbound events is processed the
acceptor sends it first the welcome system event — of kind `user_joined`,
not `message` — and then the roster snapshot of the currently joined
sessions. -/
theorem C9_connection_accept :
    (∀ st : ServerState,
      handleConnection st
        = (({ st with nextUserId := st.nextUserId + 1 },
            "user_" ++ Nat.repr st.nextUserId),
          [("user_" ++ Nat.repr st.nextUserId, welcomeMessage),
            ("user_" ++ Nat.repr st.nextUserId, userListMessage st.users)]))
    ∧ welcomeMessage.type = MsgType.user_joined
    ∧ (∀ ops : List Op, (assignedIds initState ops).Nodup) :=
  ⟨fun _ => rfl, rfl, fun ops => assignedIds_nodup ops initState⟩
